import Mathlib

/-!
# Verification of the scheduling app's recurrence expander and event registry

Shallow embedding of `enterprise_scheduling_app_streamlit.py`:
the create-event expansion loop (lines 178-205), the transactional batch
insert (lines 207-226) and the "My Events" query (lines 236-241).

Timestamps are modelled as `Int` seconds (Python `datetime` is a point on a
time line; `timedelta(days=d)` adds `86400 * d` seconds).  `uuid.uuid4()` is
modelled as drawing successive values from a monotone `Nat` counter: each
draw returns the current counter value and increments it, so distinct draws
are distinct, which is the guarantee the program relies on.
-/

namespace SchedApp

/-- One row of the `events` table (source lines 52-65 and 194-205). -/
structure Event where
  id : Nat
  series_id : Nat
  title : String
  owner : String
  start_ts : Int
  end_ts : Int
  priority : String
  status : String
  recurrence : String
  notes : String
deriving DecidableEq, Repr

/-- Seconds in a day: `timedelta(days=1)`. -/
def daySecs : Int := 86400

/-- The offset for occurrence index `i`, from the if/elif chain at source
lines 185-192: `Daily` gives `timedelta(days=i)`, `Weekly` gives
`timedelta(weeks=i)` (7 days per week), `Monthly` gives
`timedelta(days=30*i)`, and anything else (including "None") gives
`timedelta()`, i.e. zero. -/
def deltaFor (recurrence : String) (i : Nat) : Int :=
  if recurrence = "Daily" then daySecs * i
  else if recurrence = "Weekly" then 7 * daySecs * i
  else if recurrence = "Monthly" then daySecs * (30 * i)
  else 0

/-- The fields the create-event form submits (source lines 161-180). -/
structure FormInput where
  title : String
  owner : String
  start_dt : Int
  end_dt : Int
  priority : String
  recurrence : String
  count : Nat
  notes : String
deriving Repr

/-- The row dict appended at source lines 194-205 for occurrence index `i`,
given the batch's `series_id` `sid` and the id drawn for this row.
`status` is the literal "Planned" (line 202); `recurrence` is stored
verbatim (line 203). -/
def mkRow (f : FormInput) (sid : Nat) (rowId : Nat) (i : Nat) : Event :=
  { id := rowId
    series_id := sid
    title := f.title
    owner := f.owner
    start_ts := f.start_dt + deltaFor f.recurrence i
    end_ts := f.end_dt + deltaFor f.recurrence i
    priority := f.priority
    status := "Planned"
    recurrence := f.recurrence
    notes := f.notes }

/-- The expansion loop `for i in range(count)` (source lines 183-205),
parameterised by the id supply: occurrence `i` receives id `idOf i`. -/
def expandRows (f : FormInput) (sid : Nat) (idOf : Nat → Nat) : List Event :=
  (List.range f.count).map (fun i => mkRow f sid (idOf i) i)

/-- The whole submit handler's row construction (source lines 178-205):
draw `series_id` from the uuid counter `ctr` (line 181), then one fresh id
per row inside the loop (line 195).  Returns the rows and the counter
after the call. -/
def createEvent (f : FormInput) (ctr : Nat) : List Event × Nat :=
  let sid := ctr
  let rows := expandRows f sid (fun i => ctr + 1 + i)
  (rows, ctr + 1 + f.count)

/-! ## Event Registry: the `events` table and its operations -/

/-- The sequence of `INSERT INTO events` statements executed inside the
transaction (source lines 208-226).  The store enforces the `id` PRIMARY
KEY (source line 54): a duplicate id makes the statement raise.  The store
may also fault for external reasons (unavailability); the `fault` oracle
says whether the k-th write of this transaction hits such a fault.  A
successful insert appends the row to the table. -/
def runInserts (fault : Nat → Bool) : List Event → List Event → Nat → Except Unit (List Event)
  | db, [], _ => .ok db
  | db, r :: rest, k =>
    if fault k then .error ()
    else if db.any (fun e => e.id == r.id) then .error ()
    else runInserts fault (db ++ [r]) rest (k + 1)

/-- The transactional batch insert, `with engine.begin()` (source lines
207-226): if any statement inside raises, the transaction rolls back and
the table is unchanged; otherwise all rows are committed.  Returns the
resulting table and whether the commit happened. -/
def insertBatch (fault : Nat → Bool) (db rows : List Event) : List Event × Bool :=
  match runInserts fault db rows 0 with
  | .ok db2 => (db2, true)
  | .error _ => (db, false)

/-- The "My Events" query (source lines 236-241):
`SELECT * FROM events WHERE owner=:o ORDER BY start_ts`. -/
def list_by_owner (db : List Event) (o : String) : List Event :=
  (db.filter (fun e => e.owner == o)).mergeSort
    (fun a b => decide (a.start_ts ≤ b.start_ts))

/-- The query `SELECT * FROM events` (source lines 252 and 300): the whole
table. -/
def list_all (db : List Event) : List Event := db

/-- Modelled from the spec: the registry `delete(id)` operation, which
`src/` does not contain (the spec notes a per-id delete exists in one
variant of the repository only): the SQL delete by primary key, keeping
every row whose id differs from the given one, a no-op when the id is
absent. -/
def deleteEvent (db : List Event) (eid : Nat) : List Event :=
  db.filter (fun e => e.id != eid)

/-- Sample form input: daily recurrence, three occurrences. -/
def fDaily : FormInput :=
  { title := "standup", owner := "alice", start_dt := 100, end_dt := 200,
    priority := "High", recurrence := "Daily", count := 3, notes := "" }

/-- Sample form input: monthly recurrence, two occurrences, starting at
2024-01-01T09:00 UTC (1704099600 seconds since the epoch). -/
def fMonthly : FormInput :=
  { title := "review", owner := "bob", start_dt := 1704099600, end_dt := 1704103200,
    priority := "Low", recurrence := "Monthly", count := 2, notes := "" }

/-- Sample form input: no recurrence but an occurrence count above one. -/
def fNone : FormInput :=
  { title := "kickoff", owner := "carol", start_dt := 500, end_dt := 900,
    priority := "Medium", recurrence := "None", count := 4, notes := "n" }

/-- Sample degenerate form input: start after end. -/
def fDegen : FormInput :=
  { title := "odd", owner := "dave", start_dt := 1000, end_dt := 400,
    priority := "Critical", recurrence := "Weekly", count := 2, notes := "" }

end SchedApp

namespace SchedApp

theorem expandRows_length (f : FormInput) (sid : Nat) (idOf : Nat → Nat) :
    (expandRows f sid idOf).length = f.count := by
  simp [expandRows]

theorem expandRows_getElem (f : FormInput) (sid : Nat) (idOf : Nat → Nat)
    (i : Nat) (h : i < f.count) :
    (expandRows f sid idOf)[i]? = some (mkRow f sid (idOf i) i) := by
  simp [expandRows, List.getElem?_map, List.getElem?_range h]

end SchedApp

namespace SchedApp

/-- C1: for every input with `count` in `[1, 365]`, the expansion loop
produces exactly `count` event records. -/
theorem c1_expander_length (f : FormInput) (sid : Nat) (idOf : Nat → Nat)
    (h1 : 1 ≤ f.count) (h2 : f.count ≤ 365) :
    (expandRows f sid idOf).length = f.count :=
  expandRows_length f sid idOf

theorem c1_expander_length_witness :
    (expandRows fDaily 0 (fun i => i + 1)).length = 3 :=
  c1_expander_length fDaily 0 (fun i => i + 1) (by decide) (by decide)

/-- Every generated row keeps the input duration: the same offset is added
to both endpoints (source lines 199-200). -/
theorem expandRows_duration (f : FormInput) (sid : Nat) (idOf : Nat → Nat) :
    ∀ e ∈ expandRows f sid idOf, e.end_ts - e.start_ts = f.end_dt - f.start_dt := by
  intro e he
  simp only [expandRows, List.mem_map, List.mem_range] at he
  obtain ⟨i, _, rfl⟩ := he
  simp [mkRow]

/-- C2: the record at occurrence index `i` of the output is the row built
for index `i` (output ordered by occurrence index ascending), its start and
end are the inputs shifted by the offset, and the offset is `i` days for
Daily, `7*i` days for Weekly and a flat `30*i` days for Monthly. -/
theorem c2_offsets (f : FormInput) (sid : Nat) (idOf : Nat → Nat)
    (i : Nat) (h : i < f.count) :
    (expandRows f sid idOf)[i]? = some (mkRow f sid (idOf i) i)
    ∧ (mkRow f sid (idOf i) i).start_ts = f.start_dt + deltaFor f.recurrence i
    ∧ (mkRow f sid (idOf i) i).end_ts = f.end_dt + deltaFor f.recurrence i
    ∧ deltaFor "Daily" i = daySecs * i
    ∧ deltaFor "Weekly" i = daySecs * (7 * i)
    ∧ deltaFor "Monthly" i = daySecs * (30 * i) := by
  refine ⟨expandRows_getElem f sid idOf i h, rfl, rfl, ?_, ?_, ?_⟩
  · simp [deltaFor]
  · simp [deltaFor, daySecs]
    omega
  · simp [deltaFor]

theorem c2_offsets_witness :
    1 < fMonthly.count
    ∧ ((expandRows fMonthly 7 (fun i => 8 + i))[1]?
          = some (mkRow fMonthly 7 (8 + 1) 1)
        ∧ (mkRow fMonthly 7 (8 + 1) 1).start_ts
            = fMonthly.start_dt + deltaFor fMonthly.recurrence 1
        ∧ (mkRow fMonthly 7 (8 + 1) 1).end_ts
            = fMonthly.end_dt + deltaFor fMonthly.recurrence 1
        ∧ deltaFor "Daily" 1 = daySecs * 1
        ∧ deltaFor "Weekly" 1 = daySecs * (7 * 1)
        ∧ deltaFor "Monthly" 1 = daySecs * (30 * 1)) :=
  ⟨by decide, c2_offsets fMonthly 7 (fun i => 8 + i) 1 (by decide)⟩

/-- C3: with recurrence `None` the offset is always zero, so every produced
record keeps the input start and end exactly; the loop still runs
`count` times and the records differ only in their ids. -/
theorem c3_none_identical (f : FormInput) (sid : Nat) (idOf : Nat → Nat)
    (h : f.recurrence = "None") :
    (∀ e ∈ expandRows f sid idOf, e.start_ts = f.start_dt ∧ e.end_ts = f.end_dt)
    ∧ (expandRows f sid idOf).length = f.count
    ∧ (expandRows f sid idOf).map (fun e => { e with id := 0 })
        = List.replicate f.count { mkRow f sid 0 0 with id := 0 } := by
  refine ⟨?_, expandRows_length f sid idOf, ?_⟩
  · intro e he
    simp only [expandRows, List.mem_map, List.mem_range] at he
    obtain ⟨i, _, rfl⟩ := he
    simp [mkRow, deltaFor, h]
  · rw [List.eq_replicate_iff]
    constructor
    · simp [expandRows]
    · intro b hb
      simp only [List.mem_map] at hb
      obtain ⟨e, he, rfl⟩ := hb
      simp only [expandRows, List.mem_map, List.mem_range] at he
      obtain ⟨i, _, rfl⟩ := he
      simp [mkRow, deltaFor, h]

theorem c3_none_identical_witness :
    fNone.recurrence = "None"
    ∧ ((∀ e ∈ expandRows fNone 5 (fun i => 6 + i),
          e.start_ts = fNone.start_dt ∧ e.end_ts = fNone.end_dt)
        ∧ (expandRows fNone 5 (fun i => 6 + i)).length = fNone.count
        ∧ (expandRows fNone 5 (fun i => 6 + i)).map (fun e => { e with id := 0 })
            = List.replicate fNone.count { mkRow fNone 5 0 0 with id := 0 }) :=
  ⟨rfl, c3_none_identical fNone 5 (fun i => 6 + i) rfl⟩

/-- C9: every record built by the creation flow has status "Planned"
(source line 202), hence a status different from "Completed". -/
theorem c9_status_planned (f : FormInput) (ctr : Nat) (e : Event)
    (he : e ∈ (createEvent f ctr).1) :
    e.status = "Planned" ∧ e.status ≠ "Completed" := by
  simp only [createEvent, expandRows, List.mem_map, List.mem_range] at he
  obtain ⟨i, _, rfl⟩ := he
  refine ⟨rfl, ?_⟩
  show ("Planned" : String) ≠ "Completed"
  decide

theorem c9_status_planned_witness :
    mkRow fDaily 0 1 0 ∈ (createEvent fDaily 0).1
    ∧ ((mkRow fDaily 0 1 0).status = "Planned"
        ∧ (mkRow fDaily 0 1 0).status ≠ "Completed") := by
  have hm : mkRow fDaily 0 1 0 ∈ (createEvent fDaily 0).1 := by
    simp only [createEvent, expandRows, List.mem_map, List.mem_range]
    exact ⟨0, by decide, rfl⟩
  exact ⟨hm, c9_status_planned fDaily 0 (mkRow fDaily 0 1 0) hm⟩

/-- C10: for every generated record, end minus start equals the input
end minus the input start, since both endpoints get the same offset. -/
theorem c10_duration (f : FormInput) (sid : Nat) (idOf : Nat → Nat)
    (e : Event) (he : e ∈ expandRows f sid idOf) :
    e.end_ts - e.start_ts = f.end_dt - f.start_dt :=
  expandRows_duration f sid idOf e he

theorem c10_duration_witness :
    mkRow fDaily 4 9 2 ∈ expandRows fDaily 4 (fun i => 7 + i)
    ∧ (mkRow fDaily 4 9 2).end_ts - (mkRow fDaily 4 9 2).start_ts
        = fDaily.end_dt - fDaily.start_dt := by
  have hm : mkRow fDaily 4 9 2 ∈ expandRows fDaily 4 (fun i => 7 + i) := by
    simp only [expandRows, List.mem_map, List.mem_range]
    exact ⟨2, by decide, rfl⟩
  exact ⟨hm, c10_duration fDaily 4 (fun i => 7 + i) (mkRow fDaily 4 9 2) hm⟩

/-- The ids drawn inside one call's loop are pairwise distinct. -/
theorem createEvent_ids_nodup (f : FormInput) (ctr : Nat) :
    (((createEvent f ctr).1).map Event.id).Nodup := by
  simp only [createEvent, expandRows, List.map_map]
  have hcomp : (Event.id ∘ fun i => mkRow f ctr (ctr + 1 + i) i)
      = fun i => ctr + 1 + i := by
    funext j
    rfl
  rw [hcomp]
  exact (List.nodup_range f.count).map (fun a b h => by omega)

/-- C4: within one call, all rows share the series id drawn at the start of
the submit handler, each row id is fresh (distinct from the series id and
from every other row id), every row's recurrence equals the submitted rule,
and a later call starting from the returned counter produces disjoint ids
and a different series id. -/
theorem c4_fresh_identifiers (f : FormInput) (ctr : Nat) (e : Event)
    (he : e ∈ (createEvent f ctr).1) :
    e.series_id = ctr
    ∧ e.recurrence = f.recurrence
    ∧ e.id ≠ e.series_id
    ∧ (((createEvent f ctr).1).map Event.id).Nodup
    ∧ ∀ g : FormInput, ∀ e2 ∈ (createEvent g (createEvent f ctr).2).1,
        e.id ≠ e2.id ∧ e.series_id ≠ e2.series_id := by
  simp only [createEvent, expandRows, List.mem_map, List.mem_range] at he
  obtain ⟨i, hi, rfl⟩ := he
  refine ⟨rfl, rfl, by simp [mkRow]; omega, createEvent_ids_nodup f ctr, ?_⟩
  · intro g e2 he2
    simp only [createEvent, expandRows, List.mem_map, List.mem_range] at he2
    obtain ⟨j, hj, rfl⟩ := he2
    constructor
    · show ctr + 1 + i ≠ ctr + 1 + f.count + 1 + j
      omega
    · show ctr ≠ ctr + 1 + f.count
      omega

theorem c4_fresh_identifiers_witness :
    mkRow fDaily 0 1 0 ∈ (createEvent fDaily 0).1
    ∧ ((mkRow fDaily 0 1 0).series_id = 0
        ∧ (mkRow fDaily 0 1 0).recurrence = fDaily.recurrence
        ∧ (mkRow fDaily 0 1 0).id ≠ (mkRow fDaily 0 1 0).series_id
        ∧ (((createEvent fDaily 0).1).map Event.id).Nodup
        ∧ ∀ g : FormInput, ∀ e2 ∈ (createEvent g (createEvent fDaily 0).2).1,
            (mkRow fDaily 0 1 0).id ≠ e2.id
            ∧ (mkRow fDaily 0 1 0).series_id ≠ e2.series_id) := by
  have hm : mkRow fDaily 0 1 0 ∈ (createEvent fDaily 0).1 := by
    simp only [createEvent, expandRows, List.mem_map, List.mem_range]
    exact ⟨0, by decide, rfl⟩
  exact ⟨hm, c4_fresh_identifiers fDaily 0 (mkRow fDaily 0 1 0) hm⟩

end SchedApp

namespace SchedApp

/-- A successful transaction appended exactly the batch, in order. -/
theorem runInserts_ok_eq (fault : Nat → Bool) :
    ∀ (rows db db2 : List Event) (k : Nat),
      runInserts fault db rows k = .ok db2 → db2 = db ++ rows
  | [], db, db2, k, h => by
    simp only [runInserts] at h
    cases h
    simp
  | r :: rest, db, db2, k, h => by
    simp only [runInserts] at h
    by_cases hf : fault k
    · simp [hf] at h
    · by_cases hdup : db.any (fun e => e.id == r.id)
      · simp [hf, hdup] at h
      · simp only [hf, hdup, if_false] at h
        have := runInserts_ok_eq fault rest (db ++ [r]) db2 (k + 1) h
        simp [this]

/-- A successful transaction implies every batch id was absent from the
table at its insert, hence absent from the original table, and the batch
ids are pairwise distinct. -/
theorem runInserts_ok_fresh (fault : Nat → Bool) :
    ∀ (rows db db2 : List Event) (k : Nat),
      runInserts fault db rows k = .ok db2 →
      (∀ r ∈ rows, ∀ e ∈ db, e.id ≠ r.id) ∧ (rows.map Event.id).Nodup
  | [], db, db2, k, h => by simp
  | r :: rest, db, db2, k, h => by
    simp only [runInserts] at h
    by_cases hf : fault k
    · simp [hf] at h
    · by_cases hdup : db.any (fun e => e.id == r.id)
      · simp [hf, hdup] at h
      · simp only [hf, hdup, if_false] at h
        have ih := runInserts_ok_fresh fault rest (db ++ [r]) db2 (k + 1) h
        simp only [List.any_eq_true, beq_iff_eq, not_exists, not_and] at hdup
        constructor
        · intro x hx e hedb
          rcases List.mem_cons.mp hx with hxr | hxrest
          · subst hxr
            exact fun hid => hdup e hedb hid
          · exact ih.1 x hxrest e (List.mem_append_left _ hedb)
        · simp only [List.map_cons, List.nodup_cons]
          constructor
          · intro hmem
            rcases List.mem_map.mp hmem with ⟨x, hxrest, hxid⟩
            exact ih.1 x hxrest r (List.mem_append_right _ (List.mem_singleton.mpr rfl)) hxid.symm
          · exact ih.2

/-- C5: a batch insert is all-or-nothing: either every row of the batch is
appended and the transaction commits, or the table is left unchanged and
the operation reports failure. -/
theorem c5_all_or_nothing (fault : Nat → Bool) (db rows : List Event) :
    insertBatch fault db rows = (db ++ rows, true)
    ∨ insertBatch fault db rows = (db, false) := by
  unfold insertBatch
  cases h : runInserts fault db rows 0 with
  | ok db2 =>
    left
    rw [runInserts_ok_eq fault rows db db2 0 h]
  | error e => right; rfl

/-- A committed batch insert means the statement sequence succeeded. -/
theorem insertBatch_ok (fault : Nat → Bool) (db rows db2 : List Event)
    (hok : insertBatch fault db rows = (db2, true)) :
    runInserts fault db rows 0 = Except.ok db2 := by
  unfold insertBatch at hok
  cases h : runInserts fault db rows 0 with
  | ok d =>
    rw [h] at hok
    simp only [Prod.mk.injEq] at hok
    rw [hok.1]
  | error e =>
    rw [h] at hok
    simp at hok

/-- C6: the owner listing contains exactly the rows whose owner matches,
sorted by start ascending, and after a committed batch insert each
inserted row appears exactly once in its owner's listing. -/
theorem c6_owner_listing (fault : Nat → Bool) (db rows db2 : List Event)
    (hok : insertBatch fault db rows = (db2, true)) (r : Event) (hr : r ∈ rows) :
    (∀ e, e ∈ list_by_owner db2 r.owner ↔ e ∈ db2 ∧ e.owner = r.owner)
    ∧ (list_by_owner db2 r.owner).Pairwise (fun a b => a.start_ts ≤ b.start_ts)
    ∧ (list_by_owner db2 r.owner).count r = 1 := by
  have hrun := insertBatch_ok fault db rows db2 hok
  have heq : db2 = db ++ rows := runInserts_ok_eq fault rows db db2 0 hrun
  have hfresh := runInserts_ok_fresh fault rows db db2 0 hrun
  refine ⟨?_, ?_, ?_⟩
  · intro e
    simp [list_by_owner]
  · simp only [list_by_owner]
    refine List.Pairwise.imp ?_
      (List.sorted_mergeSort ?_ ?_ (db2.filter (fun e => e.owner == r.owner)))
    · intro a b hab
      exact of_decide_eq_true hab
    · intro a b c hab hbc
      simp only [decide_eq_true_eq] at hab hbc ⊢
      omega
    · intro a b
      simp only [Bool.or_eq_true, decide_eq_true_eq]
      omega
  · have hperm := List.mergeSort_perm
      (db2.filter (fun e => e.owner == r.owner))
      (fun a b => decide (a.start_ts ≤ b.start_ts))
    rw [list_by_owner, hperm.count_eq r, List.count_filter (by simp), heq,
      List.count_append]
    have hzero : (db.count r) = 0 := by
      rw [List.count_eq_zero]
      intro hmem
      exact hfresh.1 r hr r hmem rfl
    have hone : (rows.count r) = 1 :=
      List.count_eq_one_of_mem (List.Nodup.of_map Event.id hfresh.2) hr
    omega

theorem c6_owner_listing_witness :
    insertBatch (fun _ => false) [] (createEvent fDaily 0).1
        = (([] : List Event) ++ (createEvent fDaily 0).1, true)
    ∧ mkRow fDaily 0 1 0 ∈ (createEvent fDaily 0).1
    ∧ ((∀ e, e ∈ list_by_owner ([] ++ (createEvent fDaily 0).1) (mkRow fDaily 0 1 0).owner
          ↔ e ∈ [] ++ (createEvent fDaily 0).1 ∧ e.owner = (mkRow fDaily 0 1 0).owner)
        ∧ (list_by_owner ([] ++ (createEvent fDaily 0).1) (mkRow fDaily 0 1 0).owner).Pairwise
            (fun a b => a.start_ts ≤ b.start_ts)
        ∧ (list_by_owner ([] ++ (createEvent fDaily 0).1)
            (mkRow fDaily 0 1 0).owner).count (mkRow fDaily 0 1 0) = 1) := by
  have hins : insertBatch (fun _ => false) [] (createEvent fDaily 0).1
      = (([] : List Event) ++ (createEvent fDaily 0).1, true) := by decide
  have hm : mkRow fDaily 0 1 0 ∈ (createEvent fDaily 0).1 := by
    simp only [createEvent, expandRows, List.mem_map, List.mem_range]
    exact ⟨0, by decide, rfl⟩
  exact ⟨hins, hm,
    c6_owner_listing (fun _ => false) [] (createEvent fDaily 0).1
      ([] ++ (createEvent fDaily 0).1) hins (mkRow fDaily 0 1 0) hm⟩

/-- With no storage fault and fresh, pairwise-distinct ids, every insert
statement succeeds, whatever the field values are. -/
theorem runInserts_ok_of_fresh :
    ∀ (rows db : List Event) (k : Nat),
      (∀ r ∈ rows, ∀ e ∈ db, e.id ≠ r.id) → (rows.map Event.id).Nodup →
      runInserts (fun _ => false) db rows k = .ok (db ++ rows)
  | [], db, k, _, _ => by simp [runInserts]
  | r :: rest, db, k, hfr, hnd => by
    simp only [List.map_cons, List.nodup_cons] at hnd
    have hany : db.any (fun e => e.id == r.id) = false := by
      rw [List.any_eq_false]
      intro e he
      simp only [beq_iff_eq]
      exact fun hcontra => hfr r (List.mem_cons_self r rest) e he hcontra
    have hfr2 : ∀ x ∈ rest, ∀ e ∈ db ++ [r], e.id ≠ x.id := by
      intro x hx e he2
      rcases List.mem_append.mp he2 with hdb | hr1
      · exact hfr x (List.mem_cons_of_mem r hx) e hdb
      · rw [List.mem_singleton.mp hr1]
        intro hcontra
        exact hnd.1 (List.mem_map.mpr ⟨x, hx, hcontra.symm⟩)
    have ih := runInserts_ok_of_fresh rest (db ++ [r]) (k + 1) hfr2 hnd.2
    simp [runInserts, hany, ih]

/-- C7: no field validation anywhere: the creation flow accepts a start
after the end, every produced record is stored as built (end before
start), and with no storage fault the insert path commits the batch
whatever the field values are. -/
theorem c7_no_validation (f : FormInput) (ctr : Nat) (db : List Event)
    (hdeg : f.end_dt < f.start_dt)
    (hfresh : ∀ r ∈ (createEvent f ctr).1, ∀ e ∈ db, e.id ≠ r.id) :
    insertBatch (fun _ => false) db (createEvent f ctr).1
      = (db ++ (createEvent f ctr).1, true)
    ∧ ∀ e ∈ (createEvent f ctr).1, e.end_ts < e.start_ts := by
  constructor
  · unfold insertBatch
    rw [runInserts_ok_of_fresh (createEvent f ctr).1 db 0 hfresh
      (createEvent_ids_nodup f ctr)]
  · intro e he
    have hd : e.end_ts - e.start_ts = f.end_dt - f.start_dt :=
      expandRows_duration f ctr (fun i => ctr + 1 + i) e he
    omega

theorem c7_no_validation_witness :
    fDegen.end_dt < fDegen.start_dt
    ∧ (∀ r ∈ (createEvent fDegen 0).1, ∀ e ∈ ([] : List Event), e.id ≠ r.id)
    ∧ (insertBatch (fun _ => false) [] (createEvent fDegen 0).1
          = (([] : List Event) ++ (createEvent fDegen 0).1, true)
        ∧ ∀ e ∈ (createEvent fDegen 0).1, e.end_ts < e.start_ts) := by
  have h1 : fDegen.end_dt < fDegen.start_dt := by decide
  have h2 : ∀ r ∈ (createEvent fDegen 0).1, ∀ e ∈ ([] : List Event), e.id ≠ r.id := by
    intro r _ e he
    simp at he
  exact ⟨h1, h2, c7_no_validation fDegen 0 [] h1 h2⟩

/-- With unique ids, deleting a present id removes exactly one row. -/
theorem deleteEvent_length (eid : Nat) :
    ∀ db : List Event, (db.map Event.id).Nodup → (∃ e ∈ db, e.id = eid) →
      (deleteEvent db eid).length + 1 = db.length
  | [], _, hex => by simp at hex
  | e0 :: rest, hnd, hex => by
    simp only [List.map_cons, List.nodup_cons] at hnd
    by_cases h0 : e0.id = eid
    · have hrest : deleteEvent rest eid = rest := by
        rw [deleteEvent, List.filter_eq_self]
        intro a ha
        simp only [bne_iff_ne, ne_eq]
        intro hcontra
        exact hnd.1 (List.mem_map.mpr ⟨a, ha, by rw [hcontra, h0]⟩)
      have step : deleteEvent (e0 :: rest) eid = deleteEvent rest eid := by
        simp [deleteEvent, List.filter_cons, h0]
      rw [step, hrest]
      simp
    · have step : deleteEvent (e0 :: rest) eid = e0 :: deleteEvent rest eid := by
        simp [deleteEvent, List.filter_cons, h0]
      have hex2 : ∃ e ∈ rest, e.id = eid := by
        rcases hex with ⟨e, he, heid⟩
        rcases List.mem_cons.mp he with rfl | hrest2
        · exact absurd heid h0
        · exact ⟨e, hrest2, heid⟩
      have ih := deleteEvent_length eid rest hnd.2 hex2
      rw [step]
      simp only [List.length_cons]
      omega

/-- C8: with unique ids, deleting a present id removes exactly that one
record (the full listing afterwards excludes it and keeps every other
record), and deleting an absent id leaves the registry unchanged. -/
theorem c8_delete_by_id (db : List Event) (eid : Nat)
    (hnd : (db.map Event.id).Nodup) :
    ((∃ e ∈ db, e.id = eid) →
        (list_all (deleteEvent db eid)).length + 1 = (list_all db).length)
    ∧ (∀ e, e ∈ list_all (deleteEvent db eid) ↔ e ∈ list_all db ∧ e.id ≠ eid)
    ∧ ((∀ e ∈ db, e.id ≠ eid) → deleteEvent db eid = db) := by
  refine ⟨fun hex => deleteEvent_length eid db hnd hex, ?_, ?_⟩
  · intro e
    simp [list_all, deleteEvent, List.mem_filter]
  · intro habs
    rw [deleteEvent, List.filter_eq_self]
    intro a ha
    simp only [bne_iff_ne, ne_eq]
    exact habs a ha

theorem c8_delete_by_id_witness :
    (((createEvent fDaily 0).1).map Event.id).Nodup
    ∧ (∃ e ∈ (createEvent fDaily 0).1, e.id = 1)
    ∧ (list_all (deleteEvent (createEvent fDaily 0).1 1)).length + 1
        = (list_all (createEvent fDaily 0).1).length := by
  have hnd : (((createEvent fDaily 0).1).map Event.id).Nodup := by decide
  have hex : ∃ e ∈ (createEvent fDaily 0).1, e.id = 1 := by decide
  exact ⟨hnd, hex, (c8_delete_by_id (createEvent fDaily 0).1 1 hnd).1 hex⟩

end SchedApp
